import Mathlib

/-!
Verification of the eink-reader core against its specification.

The Python sources embedded here:
* `src/core/book_manager.py` — `BookManager`: `split_into_pages`, `go_to_page`,
  `next_page`, `prev_page`, `add_bookmark`, `load_book`;
* `src/ui/screens.py` — `HomeScreen.handle_event`, `ReadingScreen.handle_event`;
* `src/core/display_manager.py` — `DisplayManager.draw_text_box`.

Text is modelled as `List Char` (Python `str`, indexed by codepoints), Python
`int` as `Int` (as `Nat` where the value is a length/count that is provably
non-negative), fallible code as `Except String`.
-/

namespace EinkReader

/-- Python whitespace as matched by `re` class `\s` (with the `str` flavour)
and stripped by `str.strip()`: the ASCII whitespace characters together with
the Unicode whitespace codepoints. -/
def isSpace (c : Char) : Bool :=
  (9 ≤ c.toNat && c.toNat ≤ 13) || (28 ≤ c.toNat && c.toNat ≤ 31) ||
  c.toNat = 32 || c.toNat = 0x85 || c.toNat = 0xA0 || c.toNat = 0x1680 ||
  (0x2000 ≤ c.toNat && c.toNat ≤ 0x200A) || c.toNat = 0x2028 ||
  c.toNat = 0x2029 || c.toNat = 0x202F || c.toNat = 0x205F || c.toNat = 0x3000

/-- Python `str.strip()`: drop leading and trailing whitespace. -/
def pyStrip (cs : List Char) : List Char :=
  ((cs.dropWhile isSpace).reverse.dropWhile isSpace).reverse

/-- Index of the last `'\n'` in a list, if any.  Used to model the greedy
backtracking of the regex `\n\s*\n`: after an initial newline, the `\s*`
consumes the longest whitespace run that still leaves a final `'\n'`, i.e.
the match extends to the last newline inside the whitespace run. -/
def lastNewlineIdx : List Char → Option Nat
  | [] => none
  | c :: t =>
    match lastNewlineIdx t with
    | some j => some (j + 1)
    | none => if c = '\n' then some 0 else none

/-- Scanner for Python `re.split with the raw pattern "\n\s*\n"` (book_manager.py line 174).
At each `'\n'`, the regex matches iff the maximal whitespace run that follows
contains another `'\n'`; the (greedy, leftmost) match then extends through the
last `'\n'` of that run.  `fuel` only keeps the recursion structural; every
step consumes at least one character, so `fuel = cs.length` always suffices. -/
def blankSplitAux : Nat → List Char → List Char → List (List Char)
  | _, acc, [] => [acc.reverse]
  | 0, acc, cs => [acc.reverse ++ cs]
  | fuel + 1, acc, c :: rest =>
    if c = '\n' then
      match lastNewlineIdx (rest.takeWhile isSpace) with
      | some j => acc.reverse :: blankSplitAux fuel [] (rest.drop (j + 1))
      | none => blankSplitAux fuel (c :: acc) rest
    else blankSplitAux fuel (c :: acc) rest

/-- `re.split with the raw pattern "\n\s*\n"`: the pieces of `text` between matches of the
blank-line regex (empty pieces included, as Python produces them). -/
def reSplitBlank (cs : List Char) : List (List Char) :=
  blankSplitAux cs.length [] cs

/-- The placeholder page returned for empty input
(book_manager.py line 171: `return ["空内容"]`). -/
def emptyContentPage : List Char := "空内容".toList

/-- The paragraph loop of `BookManager.split_into_pages`
(book_manager.py lines 179-198): strip each paragraph, skip blank ones, and
greedily accumulate using the running counter `current_chars`; a full page is
closed as `'\n'.join(current_page)` and lines 196-198 append the final page
when non-empty. -/
def pagesLoop (chars_per_page : Nat) :
    List (List Char) → List (List Char) → Nat → List (List Char)
  | [], current_page, _ =>
    if current_page = [] then [] else [List.intercalate ['\n'] current_page]
  | para :: rest, current_page, current_chars =>
    if pyStrip para = [] then pagesLoop chars_per_page rest current_page current_chars
    else if current_chars + (pyStrip para).length ≤ chars_per_page ∨ current_page = [] then
      pagesLoop chars_per_page rest (current_page ++ [pyStrip para])
        (current_chars + (pyStrip para).length)
    else
      List.intercalate ['\n'] current_page ::
        pagesLoop chars_per_page rest [pyStrip para] (pyStrip para).length

/-- `BookManager.split_into_pages(text, chars_per_page=1500)`
(book_manager.py lines 168-200). -/
def split_into_pages (text : List Char) (chars_per_page : Nat) : List (List Char) :=
  if text = [] then [emptyContentPage]
  else pagesLoop chars_per_page (reSplitBlank text) [] 0

/-- The trimmed non-empty paragraphs of a text: blank-line split, each piece
stripped, empty pieces dropped (the per-iteration strip/skip of
book_manager.py lines 180-182, hoisted out of the loop). -/
def paragraphsOf (text : List Char) : List (List Char) :=
  ((reSplitBlank text).map pyStrip).filter (fun p => !p.isEmpty)

/-- Modelled from the spec (claim C1 wording): greedy accumulation where a
paragraph joins the current page exactly when the page is empty or the sum of
the lengths of the paragraphs already on the page plus its own length is at
most the budget; otherwise the page is closed (joined by a single newline)
and a new page starts with that paragraph. -/
def specGreedy (budget : Nat) :
    List (List Char) → List (List Char) → List (List Char)
  | page, [] => if page = [] then [] else [List.intercalate ['\n'] page]
  | page, p :: rest =>
    if page = [] ∨ (page.map List.length).sum + p.length ≤ budget then
      specGreedy budget (page ++ [p]) rest
    else
      List.intercalate ['\n'] page :: specGreedy budget [p] rest

/-- The pages of the greedy accumulation kept as paragraph groups (before the
`'\n'.join`); `specGreedy` is its image under `List.intercalate ['\n']`. -/
def pageGroups (budget : Nat) :
    List (List Char) → List (List Char) → List (List (List Char))
  | page, [] => if page = [] then [] else [page]
  | page, p :: rest =>
    if page = [] ∨ (page.map List.length).sum + p.length ≤ budget then
      pageGroups budget (page ++ [p]) rest
    else
      page :: pageGroups budget [p] rest

/-! ### BookManager state (book_manager.py) -/

/-- A `pathlib.Path` value as the embedded code observes it: the path string
and its `suffix` (the final component's extension, leading dot included). -/
structure PyPath where
  str : String
  suffix : String
deriving DecidableEq

/-- The mutable fields of `BookManager` used by the embedded methods
(book_manager.py lines 19-26).  Bookmarks are kept as an insertion-ordered
name-to-page association list; the `timestamp` field of a stored bookmark is
never produced by any surviving code path (see `add_bookmark`), so it is not
modelled. -/
structure BMState where
  current_book_path : Option PyPath
  pages : List (List Char)
  current_page : Int
  total_pages : Nat
  bookmarks : List (String × Int)
deriving DecidableEq

/-- `BookManager.go_to_page` (book_manager.py lines 212-217): move only when
`0 <= page_num < len(self.pages)`, returning whether the move happened. -/
def go_to_page (page_num : Int) (s : BMState) : BMState × Bool :=
  if 0 ≤ page_num ∧ page_num < (s.pages.length : Int) then
    ({ s with current_page := page_num }, true)
  else (s, false)

/-- `BookManager.next_page` (book_manager.py lines 219-221). -/
def next_page (s : BMState) : BMState × Bool :=
  go_to_page (s.current_page + 1) s

/-- `BookManager.prev_page` (book_manager.py lines 223-225). -/
def prev_page (s : BMState) : BMState × Bool :=
  go_to_page (s.current_page - 1) s

/-- The BookManager invariant of the spec: `total_pages` mirrors
`len(pages)`, `0 ≤ current_page < total_pages` whenever there are pages, and
`current_page = 0` when there are none. -/
def bmInv (s : BMState) : Prop :=
  s.total_pages = s.pages.length ∧
  (0 < s.total_pages → 0 ≤ s.current_page ∧ s.current_page < (s.total_pages : Int)) ∧
  (s.total_pages = 0 → s.current_page = 0)

instance (s : BMState) : Decidable (bmInv s) := by
  unfold bmInv
  infer_instance

/-- `BookManager.add_bookmark` (book_manager.py lines 233-247).  With a book
loaded it synthesizes a default name, then evaluates the dict literal
holding the page and a `time.time()` timestamp — but
book_manager.py imports only `os`, `re`, `logging`, `pathlib.Path` and
`typing` names (lines 5-9), never `time`, so `time.time()` raises a
`NameError` before the assignment to `self.bookmarks[name]`; the state is
unchanged, no bookmark is stored, nothing is saved, and no value is
returned. -/
def add_bookmark (name : Option String) (s : BMState) :
    Except String (BMState × Bool) :=
  if s.current_book_path = none then .ok (s, false)
  else
    let _synthesized : String :=
      match name with
      | none => "书签 " ++ toString (s.bookmarks.length + 1)
      | some n => n
    .error "NameError: name time is not defined"

/-- The environment `load_book` interacts with: file existence, the three
per-format text loaders, and the bookmark sidecar (`load_bookmarks` sets
`bookmarks` from the sidecar file when it exists — a parse failure yields the
empty map — and leaves them untouched when it does not). -/
structure FileEnv where
  pathExists : PyPath → Bool
  load_txt : PyPath → List Char
  load_epub : PyPath → List Char
  load_pdf : PyPath → List Char
  sidecar : PyPath → Option (List (String × Int))

/-- Python `str.lower()` applied to a suffix, as a character-wise lowercase
map (the suffixes compared against are all ASCII). -/
def lowerStr (s : String) : String := ⟨s.data.map Char.toLower⟩

/-- The tail of `load_book` common to the three supported formats
(book_manager.py lines 87-95): paginate the extracted content with the
default budget 1500, record the page count, and load the sidecar
bookmarks. -/
def load_book_paginate (env : FileEnv) (path : PyPath) (s : BMState)
    (content : List Char) : BMState × Bool :=
  let pages := split_into_pages content 1500
  let s₁ := { s with pages := pages, total_pages := pages.length }
  match env.sidecar path with
  | some m => ({ s₁ with bookmarks := m }, true)
  | none => (s₁, true)

/-- `BookManager.load_book` (book_manager.py lines 65-99): fail fast when the
file does not exist; otherwise set `current_book_path` and reset
`current_page` to 0 *before* dispatching on the lower-cased suffix; an
unsupported suffix returns False right there, leaving `pages`,
`total_pages` and `bookmarks` as they were; a supported one paginates the
loaded content and loads the sidecar bookmarks. -/
def load_book (env : FileEnv) (path : PyPath) (s : BMState) : BMState × Bool :=
  if ¬ env.pathExists path then (s, false)
  else
    let s₁ := { s with current_book_path := some path, current_page := 0 }
    if lowerStr path.suffix = ".txt" then
      load_book_paginate env path s₁ (env.load_txt path)
    else if lowerStr path.suffix = ".epub" then
      load_book_paginate env path s₁ (env.load_epub path)
    else if lowerStr path.suffix = ".pdf" then
      load_book_paginate env path s₁ (env.load_pdf path)
    else (s₁, false)

/-! ### Screens (screens.py) -/

/-- The event types dispatched to the screens (`event_type` strings of
screens.py, with the `GOTO_PAGE` payload: `some n` for an `int` payload and
`none` for any non-`int` `event_data`). -/
inductive Event where
  | NEXT_PAGE | PREV_PAGE | UP | DOWN | SELECT | SHOW_MENU | SHOW_HOME
  | GOTO_PAGE (d : Option Int)
deriving DecidableEq

/-- The commands the modelled handlers return to the controller. -/
inductive Command where
  | REFRESH | SAVE_CONFIG | SHOW_HOME | SHOW_MENU
  | LOAD_BOOK (path : String)
deriving DecidableEq

/-- The state touched by `ReadingScreen.handle_event`: the shared
`book_manager`, the `config["current_page"]` entry, and the screen's
`need_refresh` flag. -/
structure ReadingScreenState where
  bm : BMState
  config_current_page : Int
  need_refresh : Bool
deriving DecidableEq

namespace ReadingScreen

/-- `ReadingScreen.handle_event` (screens.py lines 211-238): `NEXT_PAGE` and
`PREV_PAGE` delegate to the book cursor; when the move succeeds the new page
is recorded in the config, `need_refresh` is set and `SAVE_CONFIG` is
returned; when it fails nothing changes and no command is returned.
`GOTO_PAGE` does the same through `go_to_page` when its payload is an int;
`SHOW_HOME`/`SHOW_MENU` are passed through. -/
def handle_event (ev : Event) (s : ReadingScreenState) :
    ReadingScreenState × Option Command :=
  match ev with
  | .NEXT_PAGE =>
    let r := next_page s.bm
    if r.2 then
      ({ bm := r.1, config_current_page := r.1.current_page, need_refresh := true },
        some .SAVE_CONFIG)
    else ({ s with bm := r.1 }, none)
  | .PREV_PAGE =>
    let r := prev_page s.bm
    if r.2 then
      ({ bm := r.1, config_current_page := r.1.current_page, need_refresh := true },
        some .SAVE_CONFIG)
    else ({ s with bm := r.1 }, none)
  | .SHOW_HOME => (s, some .SHOW_HOME)
  | .SHOW_MENU => (s, some .SHOW_MENU)
  | .GOTO_PAGE d =>
    match d with
    | some n =>
      let r := go_to_page n s.bm
      if r.2 then
        ({ bm := r.1, config_current_page := r.1.current_page, need_refresh := true },
          some .SAVE_CONFIG)
      else ({ s with bm := r.1 }, none)
    | none => (s, none)
  | _ => (s, none)

end ReadingScreen

/-- The state touched by `HomeScreen.handle_event`: the cached book list
(only the paths matter to the handler), `items_per_page` (set to 6 in
`__init__` and never reassigned), the list-page `current_page`, the
selection index and the refresh flag. -/
structure HomeScreenState where
  books : List String
  items_per_page : Nat
  current_page : Int
  selected_index : Int
  need_refresh : Bool
deriving DecidableEq

namespace HomeScreen

/-- `HomeScreen.handle_event` (screens.py lines 134-176).  `UP`/`DOWN` move
the selection inside bounds and auto-flip the list-page when the selection
crosses a page boundary; `NEXT_PAGE`/`PREV_PAGE` page the list;  `SELECT`
emits `LOAD_BOOK` with the selected path (the in-bounds guard makes the
Python indexing total; `getD` returns that same element under the guard).  -/
def handle_event (ev : Event) (s : HomeScreenState) :
    HomeScreenState × Option Command :=
  match ev with
  | .NEXT_PAGE =>
    let total : Int := ((s.books.length + s.items_per_page - 1) / s.items_per_page : Nat)
    if s.current_page < total - 1 then
      ({ s with current_page := s.current_page + 1, need_refresh := true }, some .REFRESH)
    else (s, none)
  | .PREV_PAGE =>
    if s.current_page > 0 then
      ({ s with current_page := s.current_page - 1, need_refresh := true }, some .REFRESH)
    else (s, none)
  | .UP =>
    if s.selected_index > 0 then
      let sel := s.selected_index - 1
      let cp := if sel < s.current_page * (s.items_per_page : Int) then
          max 0 (s.current_page - 1)
        else s.current_page
      ({ s with selected_index := sel, current_page := cp, need_refresh := true },
        some .REFRESH)
    else (s, none)
  | .DOWN =>
    if s.selected_index < (s.books.length : Int) - 1 then
      let sel := s.selected_index + 1
      let cp := if sel ≥ (s.current_page + 1) * (s.items_per_page : Int) then
          s.current_page + 1
        else s.current_page
      ({ s with selected_index := sel, current_page := cp, need_refresh := true },
        some .REFRESH)
    else (s, none)
  | .SELECT =>
    if 0 ≤ s.selected_index ∧ s.selected_index < (s.books.length : Int) then
      (s, some (.LOAD_BOOK (s.books.getD s.selected_index.toNat "")))
    else (s, none)
  | .SHOW_MENU => (s, some .SHOW_MENU)
  | _ => (s, none)

end HomeScreen

/-! ### Layout engine (display_manager.py) -/

/-- The font metrics `draw_text_box` queries from PIL: the measured pixel
width of a rendered string (`textbbox` width), and the integer line height
`int((bbox height of the reference sample) * line_spacing)`. -/
structure TextMetrics where
  textWidth : List Char → Nat
  lineHeight : Nat

/-- Python `text.split(' ')` (display_manager.py line 101): split on every
single space character, keeping empty pieces. -/
def splitOnSpaceAux : List Char → List Char → List (List Char)
  | acc, [] => [acc.reverse]
  | acc, c :: rest =>
    if c = ' ' then acc.reverse :: splitOnSpaceAux [] rest
    else splitOnSpaceAux (c :: acc) rest

def splitOnSpace (cs : List Char) : List (List Char) := splitOnSpaceAux [] cs

/-- The greedy word-wrap of `draw_text_box` (display_manager.py lines
100-116): for each word form `test_line = f"{current_line} {word}".strip()`;
accept it when its measured width fits or the current line is empty,
otherwise commit the current line and start over from the word; a final
non-empty line is committed. -/
def wrapLoop (m : TextMetrics) (width : Nat) :
    List (List Char) → List Char → List (List Char)
  | [], current_line => if current_line = [] then [] else [current_line]
  | word :: rest, current_line =>
    if m.textWidth (pyStrip (current_line ++ ' ' :: word)) ≤ width ∨ current_line = [] then
      wrapLoop m width rest (pyStrip (current_line ++ ' ' :: word))
    else
      current_line :: wrapLoop m width rest word

/-- Replace the last element of a list by its image under `f`. -/
def replaceLast (f : List Char → List Char) : List (List Char) → List (List Char)
  | [] => []
  | [a] => [f a]
  | a :: rest => a :: replaceLast f rest

/-- The ellipsis rewrite applied to the last visible line
(display_manager.py line 123): `lines[-1] = lines[-1][: -3] + "..."` — drop
the final 3 characters (all of them when the line is shorter) and append
three dots, regardless of the resulting measured width. -/
def ellipsize (l : List Char) : List Char :=
  l.take (l.length - 3) ++ ['.', '.', '.']

/-- The line computation of `DisplayManager.draw_text_box`
(display_manager.py lines 82-154), returning the list of rendered lines
together with the returned value `len(lines)`.  The drawing onto the PIL
image, and the x/y/alignment placement arithmetic, have no bearing on which
lines are shown and are not modelled.  Failure cases of the Python code are
explicit: `height // line_height` raises `ZeroDivisionError` when the
measured line height is 0, and `lines[-1]` raises `IndexError` when
truncation to `max_lines = 0` leaves no line. -/
def draw_text_box (m : TextMetrics) (text : List Char) (width height : Nat) :
    Except String (List (List Char) × Nat) :=
  if m.lineHeight = 0 then .error "ZeroDivisionError"
  else
    let lines := wrapLoop m width (splitOnSpace text) []
    let max_lines := height / m.lineHeight
    if lines.length > max_lines then
      let truncated := lines.take max_lines
      if truncated.length ≥ max_lines then
        if truncated = [] then .error "IndexError"
        else .ok (replaceLast ellipsize truncated, (replaceLast ellipsize truncated).length)
      else .ok (truncated, truncated.length)
    else .ok (lines, lines.length)

/-! ### Lemmas about the paginator -/

lemma pagesLoop_eq_spec (b : Nat) : ∀ (paras current_page : List (List Char))
    (current_chars : Nat),
    current_chars = (current_page.map List.length).sum →
    pagesLoop b paras current_page current_chars =
      specGreedy b current_page ((paras.map pyStrip).filter (fun p => !p.isEmpty)) := by
  intro paras
  induction paras with
  | nil =>
    intro page chars h
    simp [pagesLoop, specGreedy]
  | cons para rest ih =>
    intro page chars h
    subst h
    by_cases hp : pyStrip para = []
    · simpa [pagesLoop, hp] using ih page _ rfl
    · have hne : (pyStrip para).isEmpty = false := by
        simpa [List.isEmpty_iff] using hp
      by_cases hc : (page.map List.length).sum + (pyStrip para).length ≤ b ∨ page = []
      · have hc' : page = [] ∨ (page.map List.length).sum + (pyStrip para).length ≤ b :=
          hc.symm
        rw [pagesLoop, if_neg hp, if_pos hc, List.map_cons, List.filter_cons_of_pos
          (by simp [hne]), specGreedy, if_pos hc',
          ih (page ++ [pyStrip para]) _ (by simp)]
      · have hc' : ¬ (page = [] ∨ (page.map List.length).sum + (pyStrip para).length ≤ b) :=
          fun h => hc h.symm
        rw [pagesLoop, if_neg hp, if_neg hc, List.map_cons, List.filter_cons_of_pos
          (by simp [hne]), specGreedy, if_neg hc',
          ih [pyStrip para] _ (by simp)]

lemma split_into_pages_eq_spec (text : List Char) (b : Nat) (h : text ≠ []) :
    split_into_pages text b = specGreedy b [] (paragraphsOf text) := by
  rw [split_into_pages, if_neg h, paragraphsOf,
    pagesLoop_eq_spec b (reSplitBlank text) [] 0 rfl]

lemma specGreedy_eq_map_pageGroups (b : Nat) : ∀ (ps page : List (List Char)),
    specGreedy b page ps = (pageGroups b page ps).map (List.intercalate ['\n']) := by
  intro ps
  induction ps with
  | nil =>
    intro page
    by_cases h : page = [] <;> simp [specGreedy, pageGroups, h]
  | cons p rest ih =>
    intro page
    by_cases hc : page = [] ∨ (page.map List.length).sum + p.length ≤ b
    · rw [specGreedy, if_pos hc, pageGroups, if_pos hc, ih]
    · rw [specGreedy, if_neg hc, pageGroups, if_neg hc, List.map_cons, ih]

lemma pageGroups_flatten (b : Nat) : ∀ (ps page : List (List Char)),
    (pageGroups b page ps).flatten = page ++ ps := by
  intro ps
  induction ps with
  | nil =>
    intro page
    by_cases h : page = [] <;> simp [pageGroups, h]
  | cons p rest ih =>
    intro page
    by_cases hc : page = [] ∨ (page.map List.length).sum + p.length ≤ b
    · rw [pageGroups, if_pos hc, ih]
      simp
    · rw [pageGroups, if_neg hc, List.flatten_cons, ih]
      simp

lemma pageGroups_ne_nil_of_acc_ne_nil (b : Nat) : ∀ (ps page : List (List Char)),
    page ≠ [] → pageGroups b page ps ≠ [] := by
  intro ps
  induction ps with
  | nil =>
    intro page h
    simp [pageGroups, h]
  | cons p rest ih =>
    intro page h
    by_cases hc : page = [] ∨ (page.map List.length).sum + p.length ≤ b
    · rw [pageGroups, if_pos hc]
      exact ih _ (by simp)
    · rw [pageGroups, if_neg hc]
      simp

lemma pageGroups_mem_ne_nil (b : Nat) : ∀ (ps page : List (List Char)),
    page ≠ [] → ∀ g ∈ pageGroups b page ps, g ≠ [] := by
  intro ps
  induction ps with
  | nil =>
    intro page h g hg
    rw [pageGroups, if_neg h] at hg
    exact (List.mem_singleton.mp hg) ▸ h
  | cons p rest ih =>
    intro page h g hg
    by_cases hc : page = [] ∨ (page.map List.length).sum + p.length ≤ b
    · rw [pageGroups, if_pos hc] at hg
      exact ih _ (by simp) g hg
    · rw [pageGroups, if_neg hc] at hg
      rcases List.mem_cons.mp hg with rfl | hg
      · exact h
      · exact ih [p] (by simp) g hg

/-- Every group produced by the greedy loop is a single over-budget paragraph
or has total paragraph length within the budget. -/
lemma pageGroups_budget (b : Nat) : ∀ (ps page : List (List Char)),
    (page = [] ∨ (∃ p, page = [p] ∧ b < p.length) ∨ (page.map List.length).sum ≤ b) →
    ∀ g ∈ pageGroups b page ps,
      (∃ p, g = [p] ∧ b < p.length) ∨ (g.map List.length).sum ≤ b := by
  intro ps
  induction ps with
  | nil =>
    intro page hpage g hg
    by_cases h : page = []
    · rw [pageGroups, if_pos h] at hg
      simp at hg
    · rw [pageGroups, if_neg h] at hg
      rcases hpage with rfl | hpage
      · exact absurd rfl h
      · exact (List.mem_singleton.mp hg) ▸ hpage
  | cons p rest ih =>
    intro page hpage g hg
    by_cases hc : page = [] ∨ (page.map List.length).sum + p.length ≤ b
    · rw [pageGroups, if_pos hc] at hg
      refine ih (page ++ [p]) (Or.inr ?_) g hg
      rcases hc with rfl | hc
      · by_cases hb : p.length ≤ b
        · exact Or.inr (by simpa using hb)
        · exact Or.inl ⟨p, by simp, by omega⟩
      · exact Or.inr (by simp; omega)
    · rw [pageGroups, if_neg hc] at hg
      rcases List.mem_cons.mp hg with rfl | hg
      · rcases hpage with rfl | hpage
        · exact absurd (Or.inl rfl) hc
        · exact hpage
      · refine ih [p] (Or.inr ?_) g hg
        by_cases hb : p.length ≤ b
        · exact Or.inr (by simpa using hb)
        · exact Or.inl ⟨p, rfl, by omega⟩

lemma intercalate_singleton (s a : List Char) : List.intercalate s [a] = a := by
  simp [List.intercalate]

lemma intercalate_cons_of_ne_nil (s a : List Char) (t : List (List Char)) (h : t ≠ []) :
    List.intercalate s (a :: t) = a ++ s ++ List.intercalate s t := by
  cases t with
  | nil => exact absurd rfl h
  | cons b t' => simp [List.intercalate, List.intersperse_cons_cons]

lemma intercalate_append_of_ne_nil (s : List Char) :
    ∀ (l₁ l₂ : List (List Char)), l₁ ≠ [] → l₂ ≠ [] →
    List.intercalate s (l₁ ++ l₂) =
      List.intercalate s l₁ ++ s ++ List.intercalate s l₂ := by
  intro l₁
  induction l₁ with
  | nil => intro l₂ h₁ _; exact absurd rfl h₁
  | cons a t ih =>
    intro l₂ h₁ h₂
    cases t with
    | nil =>
      rw [List.singleton_append, intercalate_cons_of_ne_nil s a l₂ h₂,
        intercalate_singleton]
    | cons b t' =>
      rw [List.cons_append, intercalate_cons_of_ne_nil s a ((b :: t') ++ l₂)
        (by simp), intercalate_cons_of_ne_nil s a (b :: t') (by simp),
        ih l₂ (by simp) h₂]
      simp

lemma flatten_ne_nil_of_mem_ne_nil : ∀ (gs : List (List (List Char))),
    gs ≠ [] → (∀ g ∈ gs, g ≠ []) → gs.flatten ≠ [] := by
  intro gs
  induction gs with
  | nil => intro h _; exact absurd rfl h
  | cons g t ih =>
    intro _ hmem
    rw [List.flatten_cons]
    intro hcontra
    rcases List.append_eq_nil.mp hcontra with ⟨hg, _⟩
    exact hmem g (List.mem_cons_self g t) hg

/-- Joining newline-joined groups by a newline is the same as newline-joining
the concatenation of the groups, as long as no group is empty. -/
lemma intercalate_map_intercalate : ∀ (gs : List (List (List Char))),
    (∀ g ∈ gs, g ≠ []) →
    List.intercalate ['\n'] (gs.map (List.intercalate ['\n'])) =
      List.intercalate ['\n'] gs.flatten := by
  intro gs
  induction gs with
  | nil => intro _; simp [List.intercalate]
  | cons g t ih =>
    intro hmem
    cases t with
    | nil => simp [intercalate_singleton]
    | cons g' t' =>
      have hne : ∀ x ∈ g' :: t', x ≠ [] := fun x hx => hmem x (List.mem_cons_of_mem _ hx)
      have hflat : (g' :: t').flatten ≠ [] :=
        flatten_ne_nil_of_mem_ne_nil (g' :: t') (by simp) hne
      rw [List.map_cons, intercalate_cons_of_ne_nil _ _ _ (by simp), ih hne]
      conv_rhs => rw [List.flatten_cons]
      rw [intercalate_append_of_ne_nil ['\n'] g ((g' :: t').flatten)
        (hmem g (List.mem_cons_self g (g' :: t'))) hflat]

lemma paragraphsOf_mem_ne_nil (text : List Char) :
    ∀ p ∈ paragraphsOf text, p ≠ [] := by
  intro p hp
  have := List.of_mem_filter hp
  simpa [List.isEmpty_iff] using this

/-- The reconstruction property at the level of the greedy loop: starting from
an empty accumulator on a non-empty paragraph list, the pages are the
newline-joins of groups that concatenate back to the paragraph list. -/
lemma specGreedy_reconstruction (b : Nat) (ps : List (List Char))
    (hne : ps ≠ []) (hmem : ∀ p ∈ ps, p ≠ []) :
    specGreedy b [] ps = (pageGroups b [] ps).map (List.intercalate ['\n']) ∧
    (pageGroups b [] ps).flatten = ps ∧
    pageGroups b [] ps ≠ [] ∧
    (∀ g ∈ pageGroups b [] ps, g ≠ []) := by
  refine ⟨specGreedy_eq_map_pageGroups b ps [], by simpa using pageGroups_flatten b ps [],
    ?_, ?_⟩
  · cases ps with
    | nil => exact absurd rfl hne
    | cons p rest =>
      rw [pageGroups, if_pos (Or.inl rfl)]
      exact pageGroups_ne_nil_of_acc_ne_nil b rest [p] (by simp)
  · cases ps with
    | nil => exact absurd rfl hne
    | cons p rest =>
      intro g hg
      rw [pageGroups, if_pos (Or.inl rfl)] at hg
      exact pageGroups_mem_ne_nil b rest [p] (by simp) g hg

lemma dropWhile_eq_self_of_all {p : Char → Bool} : ∀ (cs : List Char),
    (∀ c ∈ cs, p c = false) → cs.dropWhile p = cs := by
  intro cs h
  cases cs with
  | nil => rfl
  | cons c t =>
    rw [List.dropWhile_cons, if_neg]
    simp [h c (List.mem_cons_self c t)]

lemma pyStrip_of_no_space (cs : List Char) (h : ∀ c ∈ cs, isSpace c = false) :
    pyStrip cs = cs := by
  rw [pyStrip, dropWhile_eq_self_of_all cs h,
    dropWhile_eq_self_of_all cs.reverse (fun c hc => h c (List.mem_reverse.mp hc)),
    List.reverse_reverse]

lemma blankSplitAux_no_newline : ∀ (fuel : Nat) (acc cs : List Char),
    (∀ c ∈ cs, c ≠ '\n') → blankSplitAux fuel acc cs = [acc.reverse ++ cs] := by
  intro fuel
  induction fuel with
  | zero =>
    intro acc cs h
    cases cs with
    | nil => simp [blankSplitAux]
    | cons c t => simp [blankSplitAux]
  | succ n ih =>
    intro acc cs h
    cases cs with
    | nil => simp [blankSplitAux]
    | cons c t =>
      rw [blankSplitAux, if_neg (h c (List.mem_cons_self c t)),
        ih (c :: acc) t (fun x hx => h x (List.mem_cons_of_mem c hx))]
      simp

lemma reSplitBlank_no_newline (cs : List Char) (h : ∀ c ∈ cs, c ≠ '\n') :
    reSplitBlank cs = [cs] := by
  rw [reSplitBlank, blankSplitAux_no_newline cs.length [] cs h, List.reverse_nil,
    List.nil_append]

/-- A non-empty text containing no whitespace at all is always one single
page, whatever the budget: it is a single paragraph, kept whole. -/
lemma split_single_nonblank (cs : List Char) (b : Nat)
    (hsp : ∀ c ∈ cs, isSpace c = false) (hne : cs ≠ []) :
    split_into_pages cs b = [cs] := by
  have hnl : ∀ c ∈ cs, c ≠ '\n' := by
    intro c hc hcontra
    have := hsp c hc
    rw [hcontra] at this
    simp [isSpace] at this
  rw [split_into_pages, if_neg hne, reSplitBlank_no_newline cs hnl, pagesLoop,
    if_neg (by rw [pyStrip_of_no_space cs hsp]; exact hne),
    if_pos (Or.inr rfl), pyStrip_of_no_space cs hsp, pagesLoop, if_neg (by simp)]
  simp [intercalate_singleton]

lemma blankSplitAux_all_space : ∀ (fuel : Nat) (acc cs : List Char),
    (∀ c ∈ acc, isSpace c = true) → (∀ c ∈ cs, isSpace c = true) →
    ∀ p ∈ blankSplitAux fuel acc cs, ∀ c ∈ p, isSpace c = true := by
  intro fuel
  induction fuel with
  | zero =>
    intro acc cs hacc hcs p hp c hc
    cases cs with
    | nil =>
      rw [blankSplitAux] at hp
      exact hacc c (List.mem_reverse.mp ((List.mem_singleton.mp hp) ▸ hc))
    | cons d t =>
      have hp' : p ∈ [acc.reverse ++ (d :: t)] := hp
      rcases List.mem_append.mp ((List.mem_singleton.mp hp') ▸ hc) with h | h
      · exact hacc c (List.mem_reverse.mp h)
      · exact hcs c h
  | succ n ih =>
    intro acc cs hacc hcs p hp c hc
    cases cs with
    | nil =>
      rw [blankSplitAux] at hp
      exact hacc c (List.mem_reverse.mp ((List.mem_singleton.mp hp) ▸ hc))
    | cons d t =>
      have ht : ∀ x ∈ t, isSpace x = true := fun x hx => hcs x (List.mem_cons_of_mem d hx)
      rw [blankSplitAux] at hp
      by_cases hd : d = '\n'
      · rw [if_pos hd] at hp
        cases hidx : lastNewlineIdx (t.takeWhile isSpace) with
        | none =>
          rw [hidx] at hp
          exact ih (d :: acc) t
            (fun x hx => (List.mem_cons.mp hx).elim (fun e => e ▸ hcs d (List.mem_cons_self d t))
              (fun hx' => hacc x hx')) ht p hp c hc
        | some j =>
          rw [hidx] at hp
          rcases List.mem_cons.mp hp with rfl | hp'
          · exact hacc c (List.mem_reverse.mp hc)
          · exact ih [] (t.drop (j + 1)) (by simp)
              (fun x hx => ht x (List.mem_of_mem_drop hx)) p hp' c hc
      · rw [if_neg hd] at hp
        exact ih (d :: acc) t
          (fun x hx => (List.mem_cons.mp hx).elim (fun e => e ▸ hcs d (List.mem_cons_self d t))
            (fun hx' => hacc x hx')) ht p hp c hc

lemma pyStrip_all_space (p : List Char) (h : ∀ c ∈ p, isSpace c = true) :
    pyStrip p = [] := by
  rw [pyStrip, List.dropWhile_eq_nil_iff.mpr h]
  simp

/-- A text consisting solely of whitespace has no paragraphs. -/
lemma paragraphsOf_all_space (text : List Char)
    (h : ∀ c ∈ text, isSpace c = true) : paragraphsOf text = [] := by
  rw [paragraphsOf, List.filter_eq_nil_iff.mpr]
  intro p hp
  rcases List.mem_map.mp hp with ⟨q, hq, rfl⟩
  have hall : ∀ c ∈ q, isSpace c = true :=
    blankSplitAux_all_space text.length [] text (by simp) h q hq
  simp [pyStrip_all_space q hall]

lemma split_all_space (text : List Char) (b : Nat) (hne : text ≠ [])
    (h : ∀ c ∈ text, isSpace c = true) : split_into_pages text b = [] := by
  rw [split_into_pages_eq_spec text b hne, paragraphsOf_all_space text h]
  simp [specGreedy]

lemma replaceLast_length (f : List Char → List Char) :
    ∀ (l : List (List Char)), (replaceLast f l).length = l.length := by
  intro l
  induction l with
  | nil => rfl
  | cons a rest ih =>
    cases rest with
    | nil => rfl
    | cons b t => simpa [replaceLast] using ih

/-! ### Claims C1-C4 (paginator) -/

/-- C1: `split_into_pages` splits a non-empty text into trimmed non-empty
paragraphs on blank-line boundaries and accumulates them greedily — a
paragraph joins the current page exactly when the page is empty or the sum of
the paragraph lengths already on the page plus its own length is at most the
budget, otherwise the page is closed (joined by a single newline) and a new
page starts; and the two scenario examples hold. -/
theorem C1_paginate_greedy :
    (∀ (text : List Char) (b : Nat), 0 < b → text ≠ [] →
      split_into_pages text b = specGreedy b [] (paragraphsOf text)) ∧
    split_into_pages "AAAA\n\nBBBB".toList 5 = ["AAAA".toList, "BBBB".toList] ∧
    split_into_pages "AA\n\nBB".toList 10 = ["AA\nBB".toList] :=
  ⟨fun text b _ ht => split_into_pages_eq_spec text b ht, by decide, by decide⟩

/-- Witness for C1 at `text = "AAAA\n\nBBBB"`, `budget = 5`. -/
theorem C1_paginate_greedy_witness :
    0 < 5 ∧ "AAAA\n\nBBBB".toList ≠ [] ∧
    split_into_pages "AAAA\n\nBBBB".toList 5 =
      specGreedy 5 [] (paragraphsOf "AAAA\n\nBBBB".toList) :=
  ⟨by decide, by decide, C1_paginate_greedy.1 _ 5 (by decide) (by decide)⟩

/-- C2: for a text with at least one non-blank paragraph, the pages of
`split_into_pages` are the newline-joins of consecutive groups of the trimmed
non-empty paragraphs; the groups concatenate back to exactly the paragraph
sequence in order, joining all pages with the paragraph separator reproduces
the newline-joined paragraph sequence, and the page list is non-empty. -/
theorem C2_reconstruction (text : List Char) (b : Nat) (_hb : 0 < b)
    (hp : paragraphsOf text ≠ []) :
    split_into_pages text b =
      (pageGroups b [] (paragraphsOf text)).map (List.intercalate ['\n']) ∧
    (pageGroups b [] (paragraphsOf text)).flatten = paragraphsOf text ∧
    List.intercalate ['\n'] (split_into_pages text b) =
      List.intercalate ['\n'] (paragraphsOf text) ∧
    split_into_pages text b ≠ [] := by
  have htext : text ≠ [] := by
    intro h
    subst h
    exact hp (by decide)
  obtain ⟨h1, h2, h3, h4⟩ :=
    specGreedy_reconstruction b (paragraphsOf text) hp (paragraphsOf_mem_ne_nil text)
  have heq := split_into_pages_eq_spec text b htext
  refine ⟨by rw [heq, h1], h2, ?_, ?_⟩
  · rw [heq, h1, intercalate_map_intercalate _ h4, h2]
  · rw [heq, h1]
    intro hcontra
    exact h3 (List.map_eq_nil_iff.mp hcontra)

/-- Witness for C2 at `text = "AA\n\nBB"`, `budget = 10`. -/
theorem C2_reconstruction_witness :
    0 < 10 ∧ paragraphsOf "AA\n\nBB".toList ≠ [] ∧
    (List.intercalate ['\n'] (split_into_pages "AA\n\nBB".toList 10) =
      List.intercalate ['\n'] (paragraphsOf "AA\n\nBB".toList) ∧
    split_into_pages "AA\n\nBB".toList 10 ≠ []) :=
  ⟨by decide, by decide,
    (C2_reconstruction "AA\n\nBB".toList 10 (by decide) (by decide)).2.2⟩

/-- C3 counterexample: on the whitespace-only input `"   \n\n  "` the claim
fails — `split_into_pages` returns the empty sequence, not one placeholder
page.  (Line 170 of book_manager.py tests `if not text:`, which is False for
a non-empty whitespace string; every paragraph then strips to empty and is
skipped, so no page is ever appended.) -/
theorem C3_counterexample :
    split_into_pages "   \n\n  ".toList 7 = [] ∧
    ¬ split_into_pages "   \n\n  ".toList 7 = [emptyContentPage] := by
  constructor
  · decide
  · decide

/-- C3 as amended: only the genuinely empty string yields the single
placeholder page; a non-empty whitespace-only input yields the empty
sequence. -/
theorem C3_empty_input (text : List Char) (b : Nat) :
    (text = [] → split_into_pages text b = [emptyContentPage]) ∧
    (text ≠ [] → (∀ c ∈ text, isSpace c = true) → split_into_pages text b = []) := by
  constructor
  · intro h
    rw [split_into_pages, if_pos h]
  · intro hne hsp
    exact split_all_space text b hne hsp

/-- Witness for C3 at the empty string and at `"   \n\n  "`. -/
theorem C3_empty_input_witness :
    split_into_pages [] 7 = [emptyContentPage] ∧
    split_into_pages "   \n\n  ".toList 7 = [] :=
  ⟨(C3_empty_input [] 7).1 rfl,
    (C3_empty_input "   \n\n  ".toList 7).2 (by decide) (by decide)⟩

/-- C4 counterexample: with `text = "AA\n\nAAA"` and `budget = 5` the single
returned page is `"AA\nAAA"`, whose codepoint length is 6 > 5 although it is
not a single over-budget paragraph: it holds the two paragraphs `"AA"` and
`"AAA"`, each of length ≤ 5.  The loop compares the sum of paragraph lengths
(2 + 3 ≤ 5) and ignores the newline the join inserts, so the page string may
exceed the budget. -/
theorem C4_counterexample :
    split_into_pages "AA\n\nAAA".toList 5 = ["AA\nAAA".toList] ∧
    pageGroups 5 [] (paragraphsOf "AA\n\nAAA".toList) =
      [["AA".toList, "AAA".toList]] ∧
    5 < ("AA\nAAA".toList).length ∧
    (∀ p ∈ ["AA".toList, "AAA".toList], p.length ≤ 5) := by
  refine ⟨by decide, by decide, by decide, by decide⟩

/-- C4 as amended: every page produced by the greedy loop, except a page
consisting of a single paragraph whose own length exceeds the budget, has
total paragraph length (the page's length not counting the newline separators
inserted between its paragraphs) at most the budget; a single over-budget
paragraph is kept whole on its own page, e.g. 2000 copies of `'X'` with
budget 1500 give one page of all 2000 characters. -/
theorem C4_budget :
    (∀ (text : List Char) (b : Nat), 0 < b →
      (text ≠ [] → split_into_pages text b =
        (pageGroups b [] (paragraphsOf text)).map (List.intercalate ['\n'])) ∧
      ∀ g ∈ pageGroups b [] (paragraphsOf text),
        (∃ p, g = [p] ∧ b < p.length) ∨ (g.map List.length).sum ≤ b) ∧
    split_into_pages (List.replicate 2000 'X') 1500 = [List.replicate 2000 'X'] := by
  constructor
  · intro text b _
    constructor
    · intro ht
      rw [split_into_pages_eq_spec text b ht, specGreedy_eq_map_pageGroups]
    · intro g hg
      exact pageGroups_budget b (paragraphsOf text) [] (Or.inl rfl) g hg
  · refine split_single_nonblank _ 1500 ?_
      (List.ne_nil_of_length_pos (by rw [List.length_replicate]; omega))
    intro c hc
    rw [List.eq_of_mem_replicate hc]
    decide

/-- Witness for C4 at `text = "AA\n\nAAA"`, `budget = 5`. -/
theorem C4_budget_witness :
    0 < 5 ∧ "AA\n\nAAA".toList ≠ [] ∧
    split_into_pages "AA\n\nAAA".toList 5 =
      (pageGroups 5 [] (paragraphsOf "AA\n\nAAA".toList)).map
        (List.intercalate ['\n']) :=
  ⟨by decide, by decide, (C4_budget.1 "AA\n\nAAA".toList 5 (by decide)).1 (by decide)⟩

/-! ### Claims C5, C8, C10 (BookManager) -/

/-- C5: the invariant `0 ≤ current_page < total_pages` (for `total_pages > 0`,
with `current_page = 0` when `total_pages = 0`) is preserved by `go_to_page`,
`next_page` and `prev_page`, and a rejected move (returning `false`) leaves
the state — in particular `current_page` — unchanged, so repeated
`next_page` never exceeds `total_pages - 1` and repeated `prev_page` never
goes below 0, with no wraparound. -/
theorem C5_navigation_invariant (s : BMState) (n : Int) (h : bmInv s) :
    (bmInv (go_to_page n s).1 ∧ ((go_to_page n s).2 = false → (go_to_page n s).1 = s)) ∧
    (bmInv (next_page s).1 ∧ ((next_page s).2 = false → (next_page s).1 = s)) ∧
    (bmInv (prev_page s).1 ∧ ((prev_page s).2 = false → (prev_page s).1 = s)) := by
  have key : ∀ m : Int,
      bmInv (go_to_page m s).1 ∧ ((go_to_page m s).2 = false → (go_to_page m s).1 = s) := by
    intro m
    obtain ⟨ht, hrange, hzero⟩ := h
    unfold go_to_page
    by_cases hc : 0 ≤ m ∧ m < (s.pages.length : Int)
    · rw [if_pos hc]
      refine ⟨⟨ht, fun _ => ⟨hc.1, ?_⟩, fun h0 => ?_⟩, fun hf => by simp at hf⟩
      · show m < (s.total_pages : Int)
        rw [ht]
        exact hc.2
      · show m = 0
        have h0' : s.total_pages = 0 := h0
        rw [ht] at h0'
        have := hc.1
        have := hc.2
        omega
    · rw [if_neg hc]
      exact ⟨⟨ht, hrange, hzero⟩, fun _ => rfl⟩
  exact ⟨key n, key _, key _⟩

/-- Witness for C5: a two-page book positioned on page 1; `next_page` from it
is rejected and leaves the state unchanged. -/
theorem C5_navigation_invariant_witness :
    bmInv ⟨none, [['a'], ['b']], 1, 2, []⟩ ∧
    (bmInv (next_page ⟨none, [['a'], ['b']], 1, 2, []⟩).1 ∧
      ((next_page ⟨none, [['a'], ['b']], 1, 2, []⟩).2 = false →
        (next_page ⟨none, [['a'], ['b']], 1, 2, []⟩).1 = ⟨none, [['a'], ['b']], 1, 2, []⟩)) :=
  ⟨by decide, (C5_navigation_invariant ⟨none, [['a'], ['b']], 1, 2, []⟩ 0 (by decide)).2.1⟩

/-- C8: the code contradicts the claim — `add_bookmark(None)` with a loaded
book raises `NameError` instead of storing `"书签 1"` (spec: `"Bookmark 1"`)
and returning True, because book_manager.py line 243 evaluates `time.time()`
but the module never imports `time`.  Evaluation at the claim's own scenario
(loaded book, `current_page = 3`, empty bookmark map): the call errors and
no bookmark is added. -/
theorem C8_add_bookmark_raises :
    add_bookmark none ⟨some ⟨"books/a.txt", ".txt"⟩, [['a'], ['b'], ['c'], ['d']], 3, 4, []⟩ =
      .error "NameError: name time is not defined" := by
  rfl

/-- C10: for an existing path whose lower-cased suffix is none of `.txt`,
`.epub`, `.pdf`, `load_book` returns `false`, but only after having set
`current_book_path` to that path and reset `current_page` to 0, while
`pages`, `total_pages` and `bookmarks` keep their previous values — the
failure does not leave the state unchanged. -/
theorem C10_load_book_unsupported (env : FileEnv) (path : PyPath) (s : BMState)
    (hex : env.pathExists path = true)
    (ht : lowerStr path.suffix ≠ ".txt")
    (he : lowerStr path.suffix ≠ ".epub")
    (hp : lowerStr path.suffix ≠ ".pdf") :
    load_book env path s =
      ({ s with current_book_path := some path, current_page := 0 }, false) ∧
    (load_book env path s).1.pages = s.pages ∧
    (load_book env path s).1.total_pages = s.total_pages ∧
    (load_book env path s).1.bookmarks = s.bookmarks ∧
    (load_book env path s).1.current_book_path = some path ∧
    (load_book env path s).1.current_page = 0 ∧
    (load_book env path s).2 = false := by
  have h1 : load_book env path s =
      ({ s with current_book_path := some path, current_page := 0 }, false) := by
    unfold load_book
    rw [if_neg (by simp [hex]), if_neg ht, if_neg he, if_neg hp]
  exact ⟨h1, by rw [h1], by rw [h1], by rw [h1], by rw [h1], by rw [h1], by rw [h1]⟩

/-- Witness for C10: an existing `.mobi` file against a manager that already
holds a loaded book. -/
theorem C10_load_book_unsupported_witness :
    load_book ⟨fun _ => true, fun _ => [], fun _ => [], fun _ => [], fun _ => none⟩
        ⟨"books/novel.mobi", ".mobi"⟩
        ⟨some ⟨"books/old.txt", ".txt"⟩, [['a']], 0, 1, [("书签 1", 0)]⟩ =
      ({ current_book_path := some ⟨"books/novel.mobi", ".mobi"⟩,
         pages := [['a']], current_page := 0, total_pages := 1,
         bookmarks := [("书签 1", 0)] }, false) :=
  (C10_load_book_unsupported
    ⟨fun _ => true, fun _ => [], fun _ => [], fun _ => [], fun _ => none⟩
    ⟨"books/novel.mobi", ".mobi"⟩
    ⟨some ⟨"books/old.txt", ".txt"⟩, [['a']], 0, 1, [("书签 1", 0)]⟩
    rfl (by decide) (by decide) (by decide)).1

/-! ### Claims C6 and C7 (screen handlers) -/

/-- C6: on `NEXT_PAGE` (resp. `PREV_PAGE`), if the book cursor move succeeds
the Reading screen records the new page in the config, sets the refresh flag
and returns `SAVE_CONFIG`; at the last (resp. first) page the event is a
no-op — the whole state, in particular the cursor, is unchanged and no
command is returned. -/
theorem C6_reading_page_events (s : ReadingScreenState) (hinv : bmInv s.bm) :
    ((next_page s.bm).2 = true →
      ReadingScreen.handle_event .NEXT_PAGE s =
        ({ bm := (next_page s.bm).1,
           config_current_page := s.bm.current_page + 1, need_refresh := true },
          some .SAVE_CONFIG) ∧
      (ReadingScreen.handle_event .NEXT_PAGE s).1.bm.current_page =
        s.bm.current_page + 1) ∧
    (s.bm.current_page = (s.bm.pages.length : Int) - 1 →
      ReadingScreen.handle_event .NEXT_PAGE s = (s, none)) ∧
    ((prev_page s.bm).2 = true →
      ReadingScreen.handle_event .PREV_PAGE s =
        ({ bm := (prev_page s.bm).1,
           config_current_page := s.bm.current_page - 1, need_refresh := true },
          some .SAVE_CONFIG) ∧
      (ReadingScreen.handle_event .PREV_PAGE s).1.bm.current_page =
        s.bm.current_page - 1) ∧
    (s.bm.current_page = 0 →
      ReadingScreen.handle_event .PREV_PAGE s = (s, none)) := by
  obtain ⟨ht, hrange, hzero⟩ := hinv
  refine ⟨fun hok => ?_, fun hlast => ?_, fun hok => ?_, fun hfirst => ?_⟩
  · have hcur : (next_page s.bm).1.current_page = s.bm.current_page + 1 := by
      unfold next_page go_to_page at hok ⊢
      by_cases hc : 0 ≤ s.bm.current_page + 1 ∧
          s.bm.current_page + 1 < (s.bm.pages.length : Int)
      · rw [if_pos hc]
      · rw [if_neg hc] at hok
        simp at hok
    constructor
    · show ReadingScreen.handle_event .NEXT_PAGE s = _
      rw [ReadingScreen.handle_event]
      simp only [hok, if_true, hcur]
    · rw [ReadingScreen.handle_event]
      simp only [hok, if_true, hcur]
  · have hfail : next_page s.bm = (s.bm, false) := by
      unfold next_page go_to_page
      rw [if_neg]
      rw [hlast]
      intro hc
      omega
    rw [ReadingScreen.handle_event]
    simp only [hfail]
    simp
  · have hcur : (prev_page s.bm).1.current_page = s.bm.current_page - 1 := by
      unfold prev_page go_to_page at hok ⊢
      by_cases hc : 0 ≤ s.bm.current_page - 1 ∧
          s.bm.current_page - 1 < (s.bm.pages.length : Int)
      · rw [if_pos hc]
      · rw [if_neg hc] at hok
        simp at hok
    constructor
    · rw [ReadingScreen.handle_event]
      simp only [hok, if_true, hcur]
    · rw [ReadingScreen.handle_event]
      simp only [hok, if_true, hcur]
  · have hfail : prev_page s.bm = (s.bm, false) := by
      unfold prev_page go_to_page
      rw [if_neg]
      rw [hfirst]
      intro hc
      omega
    rw [ReadingScreen.handle_event]
    simp only [hfail]
    simp

/-- Witness for C6: a two-page book on page 0 — `NEXT_PAGE` succeeds and
emits `SAVE_CONFIG`; `PREV_PAGE` is a no-op. -/
theorem C6_reading_page_events_witness :
    ReadingScreen.handle_event .NEXT_PAGE ⟨⟨none, [['a'], ['b']], 0, 2, []⟩, 0, false⟩ =
      ({ bm := ⟨none, [['a'], ['b']], 1, 2, []⟩,
         config_current_page := 1, need_refresh := true }, some .SAVE_CONFIG) ∧
    ReadingScreen.handle_event .PREV_PAGE ⟨⟨none, [['a'], ['b']], 0, 2, []⟩, 0, false⟩ =
      (⟨⟨none, [['a'], ['b']], 0, 2, []⟩, 0, false⟩, none) :=
  ⟨((C6_reading_page_events ⟨⟨none, [['a'], ['b']], 0, 2, []⟩, 0, false⟩
      (by decide)).1 (by decide)).1,
    (C6_reading_page_events ⟨⟨none, [['a'], ['b']], 0, 2, []⟩, 0, false⟩
      (by decide)).2.2.2 rfl⟩

/-- C7: on `DOWN` the Home screen increments `selected_index` whenever it is
below the last book index, and advances the list-page by one exactly when the
new index reaches the boundary `(current_page + 1) * 6`; in particular with
13 books, selection moving from index 5 to 6 flips `current_page` from 0
to 1. -/
theorem C7_home_down (s : HomeScreenState) (hipp : s.items_per_page = 6)
    (hsel : s.selected_index < (s.books.length : Int) - 1) :
    (HomeScreen.handle_event .DOWN s).1.selected_index = s.selected_index + 1 ∧
    (HomeScreen.handle_event .DOWN s).1.current_page =
      (if s.selected_index + 1 ≥ (s.current_page + 1) * 6 then s.current_page + 1
        else s.current_page) ∧
    (HomeScreen.handle_event .DOWN s).2 = some .REFRESH ∧
    (HomeScreen.handle_event .DOWN
        ⟨List.replicate 13 "b", 6, 0, 5, false⟩).1.selected_index = 6 ∧
    (HomeScreen.handle_event .DOWN
        ⟨List.replicate 13 "b", 6, 0, 5, false⟩).1.current_page = 1 := by
  refine ⟨?_, ?_, ?_, by decide, by decide⟩ <;>
    simp [HomeScreen.handle_event, if_pos hsel, hipp]

/-- Witness for C7 at the claim's own scenario: 13 books, `selected_index`
5, list-page 0. -/
theorem C7_home_down_witness :
    (HomeScreen.handle_event .DOWN
        ⟨List.replicate 13 "b", 6, 0, 5, false⟩).1.selected_index = 5 + 1 ∧
    (HomeScreen.handle_event .DOWN
        ⟨List.replicate 13 "b", 6, 0, 5, false⟩).1.current_page =
      (if 5 + 1 ≥ (0 + 1) * 6 then 0 + 1 else 0) ∧
    (HomeScreen.handle_event .DOWN
        ⟨List.replicate 13 "b", 6, 0, 5, false⟩).2 = some .REFRESH :=
  ⟨(C7_home_down ⟨List.replicate 13 "b", 6, 0, 5, false⟩ rfl (by decide)).1,
    (C7_home_down ⟨List.replicate 13 "b", 6, 0, 5, false⟩ rfl (by decide)).2.1,
    (C7_home_down ⟨List.replicate 13 "b", 6, 0, 5, false⟩ rfl (by decide)).2.2.1⟩

/-! ### Claim C9 (layout truncation) -/

/-- C9: with a positive measured line height, the maximum number of
displayable lines is `height / line_height` (integer floor); when the
wrapped lines do not exceed it they are all rendered and the returned count
is their number; when they exceed it (and at least one line is displayable)
the output is truncated to exactly `max_lines` lines, the last visible line
loses its final 3 characters and gains `"..."` regardless of resulting
width, and the returned count equals the number of lines actually
rendered. -/
theorem C9_draw_text_box_truncation (m : TextMetrics) (text : List Char)
    (width height : Nat) (hlh : 0 < m.lineHeight) :
    ((wrapLoop m width (splitOnSpace text) []).length ≤ height / m.lineHeight →
      draw_text_box m text width height =
        .ok (wrapLoop m width (splitOnSpace text) [],
          (wrapLoop m width (splitOnSpace text) []).length)) ∧
    ((wrapLoop m width (splitOnSpace text) []).length > height / m.lineHeight →
      1 ≤ height / m.lineHeight →
      draw_text_box m text width height =
        .ok (replaceLast ellipsize
            ((wrapLoop m width (splitOnSpace text) []).take (height / m.lineHeight)),
          height / m.lineHeight) ∧
      (replaceLast ellipsize
          ((wrapLoop m width (splitOnSpace text) []).take
            (height / m.lineHeight))).length = height / m.lineHeight) := by
  have hz : ¬ m.lineHeight = 0 := Nat.pos_iff_ne_zero.mp hlh
  constructor
  · intro hle
    simp only [draw_text_box, if_neg hz]
    rw [if_neg (by omega)]
  · intro hgt hone
    have hlen : ((wrapLoop m width (splitOnSpace text) []).take
        (height / m.lineHeight)).length = height / m.lineHeight := by
      rw [List.length_take]
      omega
    have hne : (wrapLoop m width (splitOnSpace text) []).take
        (height / m.lineHeight) ≠ [] := by
      intro hcontra
      rw [hcontra] at hlen
      simp at hlen
      omega
    constructor
    · simp only [draw_text_box, if_neg hz]
      rw [if_pos hgt, if_pos (le_of_eq hlen.symm), if_neg hne,
        replaceLast_length, hlen]
    · rw [replaceLast_length, hlen]

/-- Witness for C9: unit-width-per-character metrics, line height 10, a
25-pixel-high box (2 displayable lines) and four wrapped words — the output
is truncated to 2 lines and the second becomes `"..."`. -/
theorem C9_draw_text_box_truncation_witness :
    draw_text_box ⟨fun l => l.length, 10⟩ "aa bb cc dd".toList 4 25 =
      .ok ([['a', 'a'], ['.', '.', '.']], 2) := by
  have h := (C9_draw_text_box_truncation ⟨fun l => l.length, 10⟩
    "aa bb cc dd".toList 4 25 (by decide)).2 (by decide) (by decide)
  rw [h.1]
  rfl

end EinkReader
